import Mathlib

/-!
# Shallow embedding of the phone-number parsing module

This file embeds `src/lib/phoneNumber.ts` (the parser/normalizer core of
the repository) as executable Lean definitions over `List Char`, and
proves the specification claims about it.

Conventions of the embedding:

* JS strings become `List Char`; string literals are written via
  `String.toList`.
* The cleaning regex `/[^\d+x+]/gi` keeps ASCII digits, `+`, `x` and `X`
  (the `i` flag makes the class case-insensitive); it becomes
  `List.filter keepChar`.
* `String.prototype.replace(/\D/g, '')` becomes `List.filter isDigitChar`.
* `String.prototype.toLowerCase()` becomes `List.map lowerChar`, where
  `lowerChar` is the ASCII lower-casing map (the only characters this
  code ever lower-cases are digits, `+`, `x`, `X`, on which full Unicode
  lower-casing agrees with ASCII lower-casing).
* `str.split('x')` destructured as `[numberPart, extensionPart]` becomes
  the two explicit components: the segment before the first `x`
  (`numberPartOf`) and the segment strictly between the first `x` and the
  next `x` or the end (`extensionPartOf`); a missing second component
  (`undefined`, when there is no `x`) and an empty second component are
  both modelled as `[]`, which is faithful because the code only tests
  the components for JS-falsiness (`!extensionPart || !numberPart`).
* The recursion `parsePhoneNumber → parseNumberWithExtension →
  parsePhoneNumber` is embedded with an explicit fuel parameter
  (`parsePhoneNumberFuel`), entered at fuel 2.  The recursive call's
  argument never contains `x`, so it can never re-enter the extension
  path and fuel 2 always suffices; this is proved as the fuel-stability
  theorem for claim C10 (`parsePhoneNumberFuel (2 + n) = parsePhoneNumber`).
  The fuel-0 sentinel `.failure []` is therefore unreachable from the
  public entry point.
-/

/-- ASCII digit test: the JS `\d` character class (code points 48–57). -/
def isDigitChar (c : Char) : Bool :=
  decide (48 ≤ c.toNat) && decide (c.toNat ≤ 57)

/-- Characters kept by the cleaning regex `/[^\d+x+]/gi`: ASCII digits,
`+`, `x`, and (because of the `i` flag) `X`. -/
def keepChar (c : Char) : Bool :=
  isDigitChar c || c == '+' || c == 'x' || c == 'X'

/-- ASCII lower-casing, as JS `toLowerCase` acts on the characters this
module ever lower-cases (cleaned strings: digits, `+`, `x`, `X`). -/
def lowerChar (c : Char) : Char :=
  if 65 ≤ c.toNat ∧ c.toNat ≤ 90 then Char.ofNat (c.toNat + 32) else c

/-- The success payload of a parse: `PhoneNumber` in `phoneNumber.ts`. -/
structure PhoneNumber where
  countryCode : List Char
  nationalNumber : List Char
  extension : Option (List Char)
  formatted : List Char
deriving Repr, DecidableEq

/-- `PhoneNumberParseResult` in `phoneNumber.ts`: success with a phone
number, or failure with an error message. -/
inductive PhoneNumberParseResult where
  | success (phoneNumber : PhoneNumber)
  | failure (error : List Char)
deriving Repr, DecidableEq

/-- Error message: input shorter than 7 cleaned characters. -/
def errAtLeast7 : List Char := "Phone number must be at least 7 digits long".toList

/-- Error message: input longer than 15 cleaned characters. -/
def errExceed15 : List Char := "Phone number cannot exceed 15 digits".toList

/-- Error message: no routing case matched. -/
def errUnable : List Char := "Unable to parse phone number format".toList

/-- Error message: international digit count out of range. -/
def errIntl815 : List Char := "International phone number must be 8-15 digits".toList

/-- Error message: too few digits after the country code. -/
def errNatShort : List Char := "National number too short after country code".toList

/-- Error message: empty part around the extension separator. -/
def errInvalidExt : List Char := "Invalid extension format".toList

/-- Error message: main-number digit count out of range on the extension path. -/
def err7to15 : List Char := "Phone number must be 7-15 digits".toList

/-- Error message: extension length out of range. -/
def errExt1to5 : List Char := "Extension must be 1-5 digits".toList

/-- Error message: US/Canada number whose digit count is not 10. -/
def errUS10 : List Char := "US/Canada phone number must be exactly 10 digits".toList

/-- Error message: area code starting with 0 or 1. -/
def errArea : List Char := "Invalid area code".toList

/-- Error message: exchange code starting with 0 or 1. -/
def errExchange : List Char := "Invalid exchange code".toList

/-- The chunking loop in `formatInternationalNumber`: `for (i = 0; i <
n.length; i += 4) chunks.push(n.slice(i, i + 4))`.  The fuel (first
argument) only bounds the number of iterations; every call below passes
`l.length`, which always suffices because each iteration consumes at
least one character of a nonempty list. -/
def chunkAux : Nat → List Char → List (List Char)
  | 0, _ => []
  | _, [] => []
  | n + 1, c :: rest => (c :: rest.take 3) :: chunkAux n (rest.drop 3)

/-- Chunks of 4 characters, left to right, last chunk possibly shorter. -/
def chunk4 (l : List Char) : List (List Char) := chunkAux l.length l

/-- `formatInternationalNumber` from `phoneNumber.ts`. -/
def formatInternationalNumber (countryCode nationalNumber : List Char) : List Char :=
  if nationalNumber.length ≤ 10 then
    '+' :: countryCode ++ ' ' :: nationalNumber
  else
    '+' :: countryCode ++ ' ' :: List.intercalate [' '] (chunk4 nationalNumber)

/-- `parseUSNumber` from `phoneNumber.ts`. -/
def parseUSNumber (input : List Char) : PhoneNumberParseResult :=
  let digits := input.filter isDigitChar
  if digits.length ≠ 10 then
    .failure errUS10
  else
    let areaCode := digits.take 3
    let exchangeCode := (digits.drop 3).take 3
    let subscriberNumber := digits.drop 6
    if areaCode.head? = some '0' ∨ areaCode.head? = some '1' then
      .failure errArea
    else if exchangeCode.head? = some '0' ∨ exchangeCode.head? = some '1' then
      .failure errExchange
    else
      .success {
        countryCode := ['+', '1'],
        nationalNumber := digits,
        extension := none,
        formatted := '(' :: areaCode ++ ')' :: ' ' :: exchangeCode ++ '-' :: subscriberNumber }

/-- `parseInternationalNumber` from `phoneNumber.ts`. -/
def parseInternationalNumber (input : List Char) : PhoneNumberParseResult :=
  let digits := input.filter isDigitChar
  if digits.length < 8 ∨ 15 < digits.length then
    .failure errIntl815
  else
    let countryCodeLength :=
      if digits.head? = some '1' then 1
      else if digits.head? = some '7' then 1
      else if digits.head? = some '8' then 1
      else if digits.head? = some '9' then 1
      else 2
    let countryCode := digits.take countryCodeLength
    let nationalNumber := digits.drop countryCodeLength
    if nationalNumber.length < 7 then
      .failure errNatShort
    else
      .success {
        countryCode := '+' :: countryCode,
        nationalNumber := nationalNumber,
        extension := none,
        formatted := formatInternationalNumber countryCode nationalNumber }

/-- `input.toLowerCase().split('x')[0]`: the segment before the first `x`
of the lower-cased string. -/
def numberPartOf (input : List Char) : List Char :=
  (input.map lowerChar).takeWhile (fun c => c != 'x')

/-- `input.toLowerCase().split('x')[1]`: the segment strictly between the
first `x` of the lower-cased string and the next `x` (or the end); `[]`
when there is no first `x` (JS `undefined`, only ever tested for
falsiness) or when the segment is empty. -/
def extensionPartOf (input : List Char) : List Char :=
  (((input.map lowerChar).dropWhile (fun c => c != 'x')).drop 1).takeWhile (fun c => c != 'x')

/-- `parseNumberWithExtension` from `phoneNumber.ts`, with the recursive
call to the top-level parser abstracted as the parameter `parseMain`. -/
def parseNumberWithExtensionGen (parseMain : List Char → PhoneNumberParseResult)
    (input : List Char) : PhoneNumberParseResult :=
  let numberPart := numberPartOf input
  let extensionPart := extensionPartOf input
  if extensionPart = [] ∨ numberPart = [] then
    .failure errInvalidExt
  else
    let digits := numberPart.filter isDigitChar
    let extension := extensionPart.filter isDigitChar
    if digits.length < 7 ∨ 15 < digits.length then
      .failure err7to15
    else if extension.length = 0 ∨ 5 < extension.length then
      .failure errExt1to5
    else
      match parseMain numberPart with
      | .failure e => .failure e
      | .success pn =>
        .success { pn with
          extension := some extension,
          formatted := pn.formatted ++ " ext. ".toList ++ extension }

/-- `parsePhoneNumber` from `phoneNumber.ts`, with an explicit fuel
parameter bounding the recursion depth through the extension path.  The
fuel-0 sentinel `.failure []` is unreachable from fuel 2 (the public
entry point), as proved by the fuel-stability theorem below. -/
def parsePhoneNumberFuel : Nat → List Char → PhoneNumberParseResult
  | 0, _ => .failure []
  | fuel + 1, input =>
    let cleaned := input.filter keepChar
    if cleaned.length < 7 then
      .failure errAtLeast7
    else if 15 < cleaned.length then
      .failure errExceed15
    else if cleaned.head? = some '+' then
      parseInternationalNumber cleaned
    else if (cleaned.map lowerChar).contains 'x' then
      parseNumberWithExtensionGen (parsePhoneNumberFuel fuel) cleaned
    else if cleaned.length = 10 then
      parseUSNumber cleaned
    else if cleaned.length = 11 ∧ cleaned.head? = some '1' then
      parseUSNumber (cleaned.drop 1)
    else
      .failure errUnable

/-- The public entry point `parsePhoneNumber` from `phoneNumber.ts`. -/
def parsePhoneNumber (input : List Char) : PhoneNumberParseResult :=
  parsePhoneNumberFuel 2 input

/-- `parseNumberWithExtension` as it appears in the source: its recursive
call goes to the public entry point. -/
def parseNumberWithExtension (input : List Char) : PhoneNumberParseResult :=
  parseNumberWithExtensionGen parsePhoneNumber input

/-- `isValidPhoneNumber` from `phoneNumber.ts`. -/
def isValidPhoneNumber (input : List Char) : Bool :=
  match parsePhoneNumber input with
  | .success _ => true
  | .failure _ => false

/-- `getPhoneNumber` from `phoneNumber.ts`. -/
def getPhoneNumber (input : List Char) : Option PhoneNumber :=
  match parsePhoneNumber input with
  | .success pn => some pn
  | .failure _ => none

/-! ## Helper lemmas about the character alphabet of cleaned strings -/

theorem keepChar_cases {c : Char} (h : keepChar c = true) :
    isDigitChar c = true ∨ c = '+' ∨ c = 'x' ∨ c = 'X' := by
  simp only [keepChar, Bool.or_eq_true, beq_iff_eq] at h
  tauto

theorem isDigitChar_keepChar {c : Char} (h : isDigitChar c = true) : keepChar c = true := by
  simp [keepChar, h]

theorem isDigitChar_toNat {c : Char} (h : isDigitChar c = true) :
    48 ≤ c.toNat ∧ c.toNat ≤ 57 := by
  simpa [isDigitChar] using h

theorem lowerChar_digit {c : Char} (h : isDigitChar c = true) : lowerChar c = c := by
  have := isDigitChar_toNat h
  rw [lowerChar, if_neg (by omega)]

theorem lowerChar_keep {c : Char} (h : keepChar c = true) : keepChar (lowerChar c) = true := by
  rcases keepChar_cases h with hd | rfl | rfl | rfl
  · rw [lowerChar_digit hd]; exact isDigitChar_keepChar hd
  · decide
  · decide
  · decide

theorem lowerChar_idem {c : Char} (h : keepChar c = true) :
    lowerChar (lowerChar c) = lowerChar c := by
  rcases keepChar_cases h with hd | rfl | rfl | rfl
  · rw [lowerChar_digit hd, lowerChar_digit hd]
  · decide
  · decide
  · decide

theorem lowerChar_ne_plus {c : Char} (h : keepChar c = true) (hne : c ≠ '+') :
    lowerChar c ≠ '+' := by
  rcases keepChar_cases h with hd | rfl | rfl | rfl
  · rw [lowerChar_digit hd]
    intro hc
    subst hc
    exact absurd hd (by decide)
  · exact absurd rfl hne
  · decide
  · decide

theorem isDigitChar_ne_plus {c : Char} (h : isDigitChar c = true) : c ≠ '+' := by
  intro hc; subst hc; exact absurd h (by decide)

theorem isDigitChar_ne_x {c : Char} (h : isDigitChar c = true) : c ≠ 'x' := by
  intro hc; subst hc; exact absurd h (by decide)

/-! ## Helper lemmas about cleaned strings and the extension split -/

/-- An all-digit string is left unchanged by the cleaning filter. -/
theorem clean_of_digits {l : List Char} (h : ∀ c ∈ l, isDigitChar c = true) :
    l.filter keepChar = l :=
  List.filter_eq_self.mpr fun c hc => isDigitChar_keepChar (h c hc)

/-- An all-digit string is left unchanged by lower-casing. -/
theorem map_lower_of_digits {l : List Char} (h : ∀ c ∈ l, isDigitChar c = true) :
    l.map lowerChar = l := by
  rw [List.map_congr_left fun c hc => lowerChar_digit (h c hc)]
  exact List.map_id' l

/-- An all-digit string contains no `x` after lower-casing. -/
theorem no_x_of_digits {l : List Char} (h : ∀ c ∈ l, isDigitChar c = true) :
    ¬ 'x' ∈ l.map lowerChar := by
  rw [map_lower_of_digits h]
  intro hx
  exact absurd (h _ hx) (by decide)

/-- Every character of a `numberPartOf` of a cleaned string survives
cleaning, is fixed by lower-casing, and is not `x`. -/
theorem mem_numberPartOf {l : List Char} (hl : ∀ c ∈ l, keepChar c = true)
    {c : Char} (hc : c ∈ numberPartOf l) :
    keepChar c = true ∧ lowerChar c = c ∧ c ≠ 'x' := by
  have hmem : c ∈ l.map lowerChar := (List.takeWhile_sublist _).mem hc
  obtain ⟨c₀, hc₀, rfl⟩ := List.mem_map.mp hmem
  have hk := hl c₀ hc₀
  refine ⟨lowerChar_keep hk, lowerChar_idem hk, ?_⟩
  have := List.mem_takeWhile_imp hc
  simpa using this

/-- `numberPartOf` of a cleaned string is unchanged by re-cleaning. -/
theorem numberPartOf_filter_keep {l : List Char} (hl : ∀ c ∈ l, keepChar c = true) :
    (numberPartOf l).filter keepChar = numberPartOf l :=
  List.filter_eq_self.mpr fun _ hc => (mem_numberPartOf hl hc).1

/-- `numberPartOf` of a cleaned string is unchanged by lower-casing. -/
theorem numberPartOf_map_lower {l : List Char} (hl : ∀ c ∈ l, keepChar c = true) :
    (numberPartOf l).map lowerChar = numberPartOf l := by
  rw [List.map_congr_left fun c hc => (mem_numberPartOf hl hc).2.1]
  exact List.map_id' _

/-- `numberPartOf` of a cleaned string has no `x` after lower-casing. -/
theorem numberPartOf_no_x {l : List Char} (hl : ∀ c ∈ l, keepChar c = true) :
    ¬ 'x' ∈ (numberPartOf l).map lowerChar := by
  rw [numberPartOf_map_lower hl]
  intro hx
  exact absurd rfl (mem_numberPartOf hl hx).2.2

/-- If the cleaned string does not start with `+`, neither does its
`numberPartOf`. -/
theorem numberPartOf_head_ne_plus {l : List Char} (hl : ∀ c ∈ l, keepChar c = true)
    (h : l.head? ≠ some '+') : (numberPartOf l).head? ≠ some '+' := by
  intro hnp
  rw [numberPartOf, List.head?_takeWhile] at hnp
  rcases hmap : (l.map lowerChar).head? with _ | c
  · rw [hmap] at hnp; simp at hnp
  · rw [hmap] at hnp
    rcases l with _ | ⟨a, t⟩
    · simp at hmap
    · simp only [List.map_cons, List.head?_cons, Option.some.injEq] at hmap
      subst hmap
      have hk := hl a (List.mem_cons_self a t)
      simp only [Option.filter] at hnp
      split at hnp
      · rw [Option.some.injEq] at hnp
        exact lowerChar_ne_plus hk (by intro hc; subst hc; simp at h) hnp
      · exact Option.noConfusion hnp

/-! ## Fuel congruence and routing lemmas -/

/-- When the cleaned input contains no `x` (after lower-casing), the
extension path is never taken and the fuel is irrelevant. -/
theorem parseFuel_noX {input : List Char}
    (h : ¬ 'x' ∈ (input.filter keepChar).map lowerChar) (m n : Nat) :
    parsePhoneNumberFuel (m + 1) input = parsePhoneNumberFuel (n + 1) input := by
  have hc : ¬ (((input.filter keepChar).map lowerChar).contains 'x' = true) := by
    simpa using h
  simp only [parsePhoneNumberFuel]
  split_ifs <;> rfl

/-- `parseNumberWithExtensionGen` only uses its `parseMain` parameter on
the number part, so exchanging parsers that agree there is sound. -/
theorem gen_congr {f g : List Char → PhoneNumberParseResult} {l : List Char}
    (h : f (numberPartOf l) = g (numberPartOf l)) :
    parseNumberWithExtensionGen f l = parseNumberWithExtensionGen g l := by
  simp only [parseNumberWithExtensionGen]
  rw [h]

/-- The recursive call's argument never contains `x`, so fuel 2 always
suffices: adding fuel never changes the result. -/
theorem parseFuel_stable (n : Nat) (input : List Char) :
    parsePhoneNumberFuel (n + 1 + 1) input = parsePhoneNumberFuel (1 + 1) input := by
  simp only [parsePhoneNumberFuel]
  refine if_congr Iff.rfl rfl (if_congr Iff.rfl rfl (if_congr Iff.rfl rfl
    (if_congr Iff.rfl ?_ rfl)))
  refine gen_congr ?_
  have hl : ∀ c ∈ input.filter keepChar, keepChar c = true :=
    fun c hc => List.of_mem_filter hc
  have hx : ¬ 'x' ∈ ((numberPartOf (input.filter keepChar)).filter keepChar).map lowerChar := by
    rw [numberPartOf_filter_keep hl]
    exact numberPartOf_no_x hl
  exact parseFuel_noX hx n 0

/-- An all-digit string of length 10 is routed to the US/Canada parser. -/
theorem parse_digits10 {l : List Char} (hd : ∀ c ∈ l, isDigitChar c = true)
    (h10 : l.length = 10) : parsePhoneNumber l = parseUSNumber l := by
  have hclean : l.filter keepChar = l := clean_of_digits hd
  have hplus : ¬ l.head? = some '+' := by
    intro h
    exact absurd (hd '+' (List.mem_of_mem_head? (by simp [h]))) (by decide)
  have hx : ¬ ((l.map lowerChar).contains 'x' = true) := by
    simpa using no_x_of_digits hd
  show parsePhoneNumberFuel (1 + 1) l = _
  simp only [parsePhoneNumberFuel]
  rw [hclean, if_neg (by omega), if_neg (by omega), if_neg hplus, if_neg hx, if_pos h10]

/-- An all-digit string of length 11 starting with `1` is routed to the
US/Canada parser on its tail. -/
theorem parse_digits11 {l : List Char} (hd : ∀ c ∈ l, isDigitChar c = true)
    (h11 : l.length = 11) (h1 : l.head? = some '1') :
    parsePhoneNumber l = parseUSNumber (l.drop 1) := by
  have hclean : l.filter keepChar = l := clean_of_digits hd
  have hplus : ¬ l.head? = some '+' := by
    intro h
    exact absurd (hd '+' (List.mem_of_mem_head? (by simp [h]))) (by decide)
  have hx : ¬ ((l.map lowerChar).contains 'x' = true) := by
    simpa using no_x_of_digits hd
  show parsePhoneNumberFuel (1 + 1) l = _
  simp only [parsePhoneNumberFuel]
  rw [hclean, if_neg (by omega), if_neg (by omega), if_neg hplus, if_neg hx,
    if_neg (by omega), if_pos ⟨h11, h1⟩]

/-! ## Claim theorems -/

/-- C10: `parse` terminates on every input string: the only recursive
call passes the substring of the cleaned string before its first `x`,
which contains no `x` and cannot re-enter the extension path, so the
recursion depth is bounded by 2.  In the fuel embedding: any fuel beyond
2 yields exactly the result of the public entry point, i.e. fuel 2 (two
nested levels of parsing) always suffices. -/
theorem claim_C10_parse_depth_bounded (n : Nat) (input : List Char) :
    parsePhoneNumberFuel (2 + n) input = parsePhoneNumber input := by
  have h : 2 + n = n + 1 + 1 := by omega
  rw [h]
  show _ = parsePhoneNumberFuel 2 input
  have h2 : (2 : Nat) = 1 + 1 := rfl
  rw [h2]
  exact parseFuel_stable n input

/-- C7: every input whose cleaned string (digits, `+`, `x`/`X` retained)
is empty or shorter than 7 characters — `+` and `x` counting toward that
length — fails with "Phone number must be at least 7 digits long". -/
theorem claim_C7_short_input (input : List Char)
    (h : input.filter keepChar = [] ∨ (input.filter keepChar).length < 7) :
    parsePhoneNumber input = .failure errAtLeast7 := by
  have hlen : (input.filter keepChar).length < 7 := by
    rcases h with h | h
    · simp [h]
    · exact h
  show parsePhoneNumberFuel (1 + 1) input = _
  simp only [parsePhoneNumberFuel]
  rw [if_pos hlen]

theorem claim_C7_short_input_witness :
    ("123456".toList.filter keepChar = [] ∨ ("123456".toList.filter keepChar).length < 7) ∧
    parsePhoneNumber "123456".toList = .failure errAtLeast7 :=
  ⟨by decide, claim_C7_short_input _ (by decide)⟩

/-- C9: an input whose cleaned string has exactly 10 characters, does not
start with `+`, contains no `x`/`X`, but contains a `+` (hence fewer than
10 digits) reaches the US/Canada parser and fails with "US/Canada phone
number must be exactly 10 digits", so that message is reachable from the
public entry point. -/
theorem claim_C9_plus_in_us_route (input : List Char)
    (hlen : (input.filter keepChar).length = 10)
    (hplus : (input.filter keepChar).head? ≠ some '+')
    (hnox : ¬ 'x' ∈ (input.filter keepChar).map lowerChar)
    (hmem : '+' ∈ input.filter keepChar) :
    parsePhoneNumber input = .failure errUS10 := by
  have hx : ¬ (((input.filter keepChar).map lowerChar).contains 'x' = true) := by
    simpa using hnox
  have hdig : ((input.filter keepChar).filter isDigitChar).length < 10 := by
    have := (@List.length_filter_lt_length_iff_exists Char isDigitChar
      (input.filter keepChar)).mpr ⟨'+', hmem, by decide⟩
    omega
  show parsePhoneNumberFuel (1 + 1) input = _
  simp only [parsePhoneNumberFuel]
  rw [if_neg (by omega), if_neg (by omega), if_neg hplus, if_neg hx, if_pos hlen]
  simp only [parseUSNumber]
  rw [if_pos (by omega)]

theorem claim_C9_plus_in_us_route_witness :
    (("555+123456".toList.filter keepChar).length = 10 ∧
     ("555+123456".toList.filter keepChar).head? ≠ some '+' ∧
     ¬ 'x' ∈ ("555+123456".toList.filter keepChar).map lowerChar ∧
     '+' ∈ "555+123456".toList.filter keepChar) ∧
    parsePhoneNumber "555+123456".toList = .failure errUS10 :=
  ⟨by decide, claim_C9_plus_in_us_route _ (by decide) (by decide) (by decide) (by decide)⟩

/-- C1: for every string of exactly 10 ASCII digits D1..D10: if D1 and D4
are both outside {0,1} the parse succeeds with country code `+1`, the 10
digits as national number, no extension, and formatted
`(D1D2D3) D4D5D6-D7D8D9D10`; if D1 ∈ {0,1} it fails with "Invalid area
code"; if D1 is valid but D4 ∈ {0,1} it fails with "Invalid exchange
code". -/
theorem claim_C1_us_ten_digits (ds : List Char) (h10 : ds.length = 10)
    (hd : ∀ c ∈ ds, isDigitChar c = true) :
    ((ds.head? ≠ some '0' ∧ ds.head? ≠ some '1') →
      ((ds.drop 3).head? ≠ some '0' ∧ (ds.drop 3).head? ≠ some '1') →
      parsePhoneNumber ds = .success {
        countryCode := "+1".toList,
        nationalNumber := ds,
        extension := none,
        formatted := '(' :: ds.take 3 ++ ')' :: ' ' :: (ds.drop 3).take 3 ++ '-' :: ds.drop 6 })
    ∧ ((ds.head? = some '0' ∨ ds.head? = some '1') →
      parsePhoneNumber ds = .failure errArea)
    ∧ ((ds.head? ≠ some '0' ∧ ds.head? ≠ some '1') →
      ((ds.drop 3).head? = some '0' ∨ (ds.drop 3).head? = some '1') →
      parsePhoneNumber ds = .failure errExchange) := by
  have hroute := parse_digits10 hd h10
  have hfilter : ds.filter isDigitChar = ds := List.filter_eq_self.mpr hd
  have htake : (ds.take 3).head? = ds.head? := by
    rw [List.head?_take]
    simp
  have htake2 : ((ds.drop 3).take 3).head? = (ds.drop 3).head? := by
    rw [List.head?_take]
    simp
  refine ⟨?_, ?_, ?_⟩
  · intro h1 h4
    rw [hroute]
    simp only [parseUSNumber]
    rw [hfilter, if_neg (by omega), htake, htake2, if_neg (not_or.mpr h1),
      if_neg (not_or.mpr h4)]
    rfl
  · intro h1
    rw [hroute]
    simp only [parseUSNumber]
    rw [hfilter, if_neg (by omega), htake, if_pos h1]
  · intro h1 h4
    rw [hroute]
    simp only [parseUSNumber]
    rw [hfilter, if_neg (by omega), htake, htake2, if_neg (not_or.mpr h1), if_pos h4]

theorem claim_C1_us_ten_digits_witness :
    ("2345678901".toList.length = 10 ∧ (∀ c ∈ "2345678901".toList, isDigitChar c = true)) ∧
    parsePhoneNumber "2345678901".toList = .success {
      countryCode := "+1".toList,
      nationalNumber := "2345678901".toList,
      extension := none,
      formatted := "(234) 567-8901".toList } :=
  ⟨by decide,
    (((claim_C1_us_ten_digits "2345678901".toList (by decide) (by decide)).1
      (by decide) (by decide)).trans (by decide))⟩

/-- C6: for every string of exactly 11 ASCII digits beginning with `1`,
the parse result is identical to parsing the string with the leading `1`
removed. -/
theorem claim_C6_leading_one (ds : List Char) (h11 : ds.length = 11)
    (hd : ∀ c ∈ ds, isDigitChar c = true) (h1 : ds.head? = some '1') :
    parsePhoneNumber ds = parsePhoneNumber (ds.drop 1) := by
  rw [parse_digits11 hd h11 h1,
    parse_digits10 (fun c hc => hd c (List.mem_of_mem_drop hc)) (by simp [h11])]

theorem claim_C6_leading_one_witness :
    ("15551234567".toList.length = 11 ∧ (∀ c ∈ "15551234567".toList, isDigitChar c = true) ∧
      "15551234567".toList.head? = some '1') ∧
    parsePhoneNumber "15551234567".toList = parsePhoneNumber ("15551234567".toList.drop 1) :=
  ⟨by decide, claim_C6_leading_one _ (by decide) (by decide) (by decide)⟩

/-- An input whose cleaned string has length in [7, 15] and starts with
`+` is routed to the international parser. -/
theorem parse_route_intl {input : List Char}
    (h7 : 7 ≤ (input.filter keepChar).length)
    (h15 : (input.filter keepChar).length ≤ 15)
    (hplus : (input.filter keepChar).head? = some '+') :
    parsePhoneNumber input = parseInternationalNumber (input.filter keepChar) := by
  show parsePhoneNumberFuel (1 + 1) input = _
  simp only [parsePhoneNumberFuel]
  rw [if_neg (by omega), if_neg (by omega), if_pos hplus]

/-- The country-code length rule as the claim states it: one digit when
the digit string starts with 1, 7, 8 or 9, otherwise two digits. -/
def countryCodeLengthOf (digits : List Char) : Nat :=
  if digits.head? = some '1' ∨ digits.head? = some '7' ∨
      digits.head? = some '8' ∨ digits.head? = some '9' then 1 else 2

/-- The source's nested conditionals compute `countryCodeLengthOf`. -/
theorem ccLen_eq (digits : List Char) :
    (if digits.head? = some '1' then 1
     else if digits.head? = some '7' then 1
     else if digits.head? = some '8' then 1
     else if digits.head? = some '9' then 1
     else 2)
    = countryCodeLengthOf digits := by
  simp only [countryCodeLengthOf]
  split_ifs <;> first | rfl | tauto

/-- C3 (amended): for every input whose cleaned string starts with `+`
and has length in [7, 15] (the amendment: without that length bound the
top-level length checks fire first), writing `dg` for its digit
characters: if `dg` has 8–15 digits, the country code is `'+'` followed
by the first `countryCodeLengthOf dg` digits and the national number is
the rest, failing with "National number too short after country code"
when fewer than 7 digits remain and succeeding with exactly that country
code and national number otherwise; if the digit count is outside [8,15]
it fails with "International phone number must be 8-15 digits". -/
theorem claim_C3_international (input : List Char) (dg : List Char)
    (hdg : dg = (input.filter keepChar).filter isDigitChar)
    (hplus : (input.filter keepChar).head? = some '+')
    (h7 : 7 ≤ (input.filter keepChar).length)
    (h15 : (input.filter keepChar).length ≤ 15) :
    (8 ≤ dg.length ∧ dg.length ≤ 15 →
      ((dg.drop (countryCodeLengthOf dg)).length < 7 →
        parsePhoneNumber input = .failure errNatShort)
      ∧ (7 ≤ (dg.drop (countryCodeLengthOf dg)).length →
        parsePhoneNumber input = .success {
          countryCode := '+' :: dg.take (countryCodeLengthOf dg),
          nationalNumber := dg.drop (countryCodeLengthOf dg),
          extension := none,
          formatted := formatInternationalNumber (dg.take (countryCodeLengthOf dg))
            (dg.drop (countryCodeLengthOf dg)) }))
    ∧ (dg.length < 8 ∨ 15 < dg.length →
      parsePhoneNumber input = .failure errIntl815) := by
  subst hdg
  rw [parse_route_intl h7 h15 hplus]
  simp only [parseInternationalNumber]
  rw [ccLen_eq]
  constructor
  · rintro ⟨ha, hb⟩
    rw [if_neg (by omega)]
    constructor
    · intro hlt
      rw [if_pos hlt]
    · intro hge
      rw [if_neg (by omega)]
  · intro h
    rw [if_pos h]

theorem claim_C3_international_witness :
    (("+442071234567".toList.filter keepChar).filter isDigitChar =
        "442071234567".toList ∧
      ("+442071234567".toList.filter keepChar).head? = some '+' ∧
      7 ≤ ("+442071234567".toList.filter keepChar).length ∧
      ("+442071234567".toList.filter keepChar).length ≤ 15 ∧
      8 ≤ "442071234567".toList.length ∧ "442071234567".toList.length ≤ 15 ∧
      7 ≤ ("442071234567".toList.drop (countryCodeLengthOf "442071234567".toList)).length) ∧
    parsePhoneNumber "+442071234567".toList = .success {
      countryCode := "+44".toList,
      nationalNumber := "2071234567".toList,
      extension := none,
      formatted := "+44 2071234567".toList } :=
  ⟨by decide,
    ((((claim_C3_international "+442071234567".toList "442071234567".toList
      (by decide) (by decide) (by decide) (by decide)).1
        ⟨by decide, by decide⟩).2 (by decide)).trans (by decide))⟩

/-- C3 counterexample: `"++++++++12345678"` cleans to itself (16
characters), starts with `+`, and has 8 digit characters — within the
claim's [8, 15] digit-count window, with first digit `1` and 7 digits
remaining after the country code, so the claim as stated predicts
success with country code `+1` and national number `2345678`.  The code
instead fails with "Phone number cannot exceed 15 digits", because the
top-level length check on the cleaned string (which still contains the
extra `+` characters) fires before the international path is reached. -/
theorem claim_C3_counterexample :
    ("++++++++12345678".toList.filter keepChar).head? = some '+' ∧
    (("++++++++12345678".toList.filter keepChar).filter isDigitChar).length = 8 ∧
    parsePhoneNumber "++++++++12345678".toList = .failure errExceed15 := by
  decide

/-- One-step unfolding of the fueled parser (definitional). -/
theorem parseFuel_unfold (fuel : Nat) (input : List Char) :
    parsePhoneNumberFuel (fuel + 1) input =
      (if (input.filter keepChar).length < 7 then .failure errAtLeast7
       else if 15 < (input.filter keepChar).length then .failure errExceed15
       else if (input.filter keepChar).head? = some '+' then
         parseInternationalNumber (input.filter keepChar)
       else if ((input.filter keepChar).map lowerChar).contains 'x' then
         parseNumberWithExtensionGen (parsePhoneNumberFuel fuel) (input.filter keepChar)
       else if (input.filter keepChar).length = 10 then
         parseUSNumber (input.filter keepChar)
       else if (input.filter keepChar).length = 11 ∧
           (input.filter keepChar).head? = some '1' then
         parseUSNumber ((input.filter keepChar).drop 1)
       else .failure errUnable) := rfl

/-- Full characterization of the extension path: under the routing
conditions, the parse equals the split/strip/guard computation with the
recursive call going through the full public entry point (on the number
part, one unit of fuel and two units of fuel agree, because the number
part contains no `x`). -/
theorem extPath_eq (input : List Char)
    (h7 : 7 ≤ (input.filter keepChar).length)
    (h15 : (input.filter keepChar).length ≤ 15)
    (hplus : (input.filter keepChar).head? ≠ some '+')
    (hx : 'x' ∈ (input.filter keepChar).map lowerChar) :
    parsePhoneNumber input =
      (if extensionPartOf (input.filter keepChar) = [] ∨
          numberPartOf (input.filter keepChar) = [] then
        .failure errInvalidExt
      else if ((numberPartOf (input.filter keepChar)).filter isDigitChar).length < 7 ∨
          15 < ((numberPartOf (input.filter keepChar)).filter isDigitChar).length then
        .failure err7to15
      else if ((extensionPartOf (input.filter keepChar)).filter isDigitChar).length = 0 ∨
          5 < ((extensionPartOf (input.filter keepChar)).filter isDigitChar).length then
        .failure errExt1to5
      else
        match parsePhoneNumber (numberPartOf (input.filter keepChar)) with
        | .failure e => .failure e
        | .success pn => .success { pn with
            extension := some ((extensionPartOf (input.filter keepChar)).filter isDigitChar),
            formatted := pn.formatted ++ " ext. ".toList ++
              ((extensionPartOf (input.filter keepChar)).filter isDigitChar) }) := by
  have hl : ∀ c ∈ input.filter keepChar, keepChar c = true :=
    fun c hc => List.of_mem_filter hc
  have hfuel : parsePhoneNumberFuel 1 (numberPartOf (input.filter keepChar)) =
      parsePhoneNumber (numberPartOf (input.filter keepChar)) := by
    have hnx : ¬ 'x' ∈ ((numberPartOf (input.filter keepChar)).filter keepChar).map
        lowerChar := by
      rw [numberPartOf_filter_keep hl]
      exact numberPartOf_no_x hl
    show parsePhoneNumberFuel (0 + 1) _ = parsePhoneNumberFuel (1 + 1) _
    exact parseFuel_noX hnx 0 1
  have hcx : ((input.filter keepChar).map lowerChar).contains 'x' = true := by
    simpa using hx
  show parsePhoneNumberFuel (1 + 1) input = _
  rw [parseFuel_unfold, if_neg (by omega), if_neg (by omega), if_neg hplus, if_pos hcx]
  simp only [parseNumberWithExtensionGen]
  rw [hfuel]

/-- C2 (amended): for every input routed to the extension path, the
cleaned string is lower-cased and split at `x`; `numberPart` is the
segment before the first `x`, and `extensionPart` is the segment between
the first `x` and the next `x` (or the end of the string) — the
amendment: later segments after a second `x` are discarded, not
included.  If either part is empty the parse fails with "Invalid
extension format"; otherwise the extension is obtained by stripping
non-digits from exactly that `extensionPart` segment, with the remaining
digit-count and extension-length guards and the recursive main-number
parse as in the code. -/
theorem claim_C2_extension_split (input : List Char)
    (h7 : 7 ≤ (input.filter keepChar).length)
    (h15 : (input.filter keepChar).length ≤ 15)
    (hplus : (input.filter keepChar).head? ≠ some '+')
    (hx : 'x' ∈ (input.filter keepChar).map lowerChar) :
    parsePhoneNumber input =
      (if extensionPartOf (input.filter keepChar) = [] ∨
          numberPartOf (input.filter keepChar) = [] then
        .failure errInvalidExt
      else if ((numberPartOf (input.filter keepChar)).filter isDigitChar).length < 7 ∨
          15 < ((numberPartOf (input.filter keepChar)).filter isDigitChar).length then
        .failure err7to15
      else if ((extensionPartOf (input.filter keepChar)).filter isDigitChar).length = 0 ∨
          5 < ((extensionPartOf (input.filter keepChar)).filter isDigitChar).length then
        .failure errExt1to5
      else
        match parsePhoneNumber (numberPartOf (input.filter keepChar)) with
        | .failure e => .failure e
        | .success pn => .success { pn with
            extension := some ((extensionPartOf (input.filter keepChar)).filter isDigitChar),
            formatted := pn.formatted ++ " ext. ".toList ++
              ((extensionPartOf (input.filter keepChar)).filter isDigitChar) }) :=
  extPath_eq input h7 h15 hplus hx

theorem claim_C2_extension_split_witness :
    (7 ≤ ("555x1x234567".toList.filter keepChar).length ∧
      ("555x1x234567".toList.filter keepChar).length ≤ 15 ∧
      ("555x1x234567".toList.filter keepChar).head? ≠ some '+' ∧
      'x' ∈ ("555x1x234567".toList.filter keepChar).map lowerChar) ∧
    parsePhoneNumber "555x1x234567".toList = .failure err7to15 :=
  ⟨by decide,
    ((claim_C2_extension_split "555x1x234567".toList
      (by decide) (by decide) (by decide) (by decide)).trans (by decide))⟩

/-- C2 counterexample: on `"5556234567x1x2"` the claim as stated says the
extension is obtained by stripping non-digits from everything after the
first `x`, i.e. from `"1x2"`, giving `"12"`.  The code destructures
`split('x')` into its first two segments, so `extensionPart` is only
`"1"` (the segment between the first and second `x`), and the parse
succeeds with extension `"1"`, not `"12"`. -/
theorem claim_C2_counterexample :
    parsePhoneNumber "5556234567x1x2".toList = .success {
      countryCode := "+1".toList,
      nationalNumber := "5556234567".toList,
      extension := some "1".toList,
      formatted := "(555) 623-4567 ext. 1".toList } ∧
    some "1".toList ≠ some "12".toList := by
  decide

/-- C4: on the extension path, once the digit-count and extension-length
guards pass, the pre-extension substring is re-parsed through the full
top-level entry point; a failure of that recursive parse is returned
verbatim, and a success yields the recursive result with the extension
attached and `" ext. <extension>"` appended to its formatted string. -/
theorem claim_C4_recursive_reparse (input : List Char)
    (h7 : 7 ≤ (input.filter keepChar).length)
    (h15 : (input.filter keepChar).length ≤ 15)
    (hplus : (input.filter keepChar).head? ≠ some '+')
    (hx : 'x' ∈ (input.filter keepChar).map lowerChar)
    (hnp : numberPartOf (input.filter keepChar) ≠ [])
    (hep : extensionPartOf (input.filter keepChar) ≠ [])
    (hd7 : 7 ≤ ((numberPartOf (input.filter keepChar)).filter isDigitChar).length)
    (hd15 : ((numberPartOf (input.filter keepChar)).filter isDigitChar).length ≤ 15)
    (he1 : 1 ≤ ((extensionPartOf (input.filter keepChar)).filter isDigitChar).length)
    (he5 : ((extensionPartOf (input.filter keepChar)).filter isDigitChar).length ≤ 5) :
    parsePhoneNumber input =
      match parsePhoneNumber (numberPartOf (input.filter keepChar)) with
      | .failure e => .failure e
      | .success pn => .success { pn with
          extension := some ((extensionPartOf (input.filter keepChar)).filter isDigitChar),
          formatted := pn.formatted ++ " ext. ".toList ++
            ((extensionPartOf (input.filter keepChar)).filter isDigitChar) } := by
  rw [extPath_eq input h7 h15 hplus hx,
    if_neg (not_or.mpr ⟨hep, hnp⟩), if_neg (by omega), if_neg (by omega)]

theorem claim_C4_recursive_reparse_witness :
    (7 ≤ ("5556234567x89".toList.filter keepChar).length ∧
      ("5556234567x89".toList.filter keepChar).length ≤ 15 ∧
      ("5556234567x89".toList.filter keepChar).head? ≠ some '+' ∧
      'x' ∈ ("5556234567x89".toList.filter keepChar).map lowerChar ∧
      numberPartOf ("5556234567x89".toList.filter keepChar) ≠ [] ∧
      extensionPartOf ("5556234567x89".toList.filter keepChar) ≠ [] ∧
      7 ≤ ((numberPartOf ("5556234567x89".toList.filter keepChar)).filter isDigitChar).length ∧
      ((numberPartOf ("5556234567x89".toList.filter keepChar)).filter isDigitChar).length ≤ 15 ∧
      1 ≤ ((extensionPartOf ("5556234567x89".toList.filter keepChar)).filter
        isDigitChar).length ∧
      ((extensionPartOf ("5556234567x89".toList.filter keepChar)).filter
        isDigitChar).length ≤ 5) ∧
    parsePhoneNumber "5556234567x89".toList = .success {
      countryCode := "+1".toList,
      nationalNumber := "5556234567".toList,
      extension := some "89".toList,
      formatted := "(555) 623-4567 ext. 89".toList } :=
  ⟨by decide,
    ((claim_C4_recursive_reparse "5556234567x89".toList (by decide) (by decide)
      (by decide) (by decide) (by decide) (by decide) (by decide) (by decide)
      (by decide) (by decide)).trans (by decide))⟩

/-! ## Success-shape inversion lemmas -/

/-- A successful `parseUSNumber` carries country code `+1`, the digit
characters of its input as national number, and no extension. -/
theorem parseUSNumber_success_inv {l : List Char} {pn : PhoneNumber}
    (h : parseUSNumber l = .success pn) :
    pn.countryCode = ['+', '1'] ∧ pn.nationalNumber = l.filter isDigitChar ∧
    pn.extension = none := by
  simp only [parseUSNumber] at h
  split_ifs at h
  try simp only [PhoneNumberParseResult.success.injEq] at h
  subst h
  exact ⟨rfl, rfl, rfl⟩

/-- A successful `parseInternationalNumber` has no extension, a country
code `'+'` followed by a prefix of the digit characters, and a suffix of
the digit characters as national number. -/
theorem parseInternationalNumber_success_inv {l : List Char} {pn : PhoneNumber}
    (h : parseInternationalNumber l = .success pn) :
    pn.extension = none ∧
    (∃ n, pn.countryCode = '+' :: (l.filter isDigitChar).take n) ∧
    (∃ n, pn.nationalNumber = (l.filter isDigitChar).drop n) := by
  simp only [parseInternationalNumber] at h
  split_ifs at h
  all_goals
    try simp only [PhoneNumberParseResult.success.injEq] at h
    subst h
    exact ⟨rfl, ⟨_, rfl⟩, ⟨_, rfl⟩⟩

/-- Inversion of a successful `parseNumberWithExtensionGen`: the inner
parser succeeded on the number part, the payload inherits its country
code and national number, and the extension is the stripped extension
part with length 1–5. -/
theorem gen_success_inv {f : List Char → PhoneNumberParseResult} {l : List Char}
    {pn : PhoneNumber} (h : parseNumberWithExtensionGen f l = .success pn) :
    ∃ pn₀, f (numberPartOf l) = .success pn₀ ∧
      pn.countryCode = pn₀.countryCode ∧
      pn.nationalNumber = pn₀.nationalNumber ∧
      pn.extension = some ((extensionPartOf l).filter isDigitChar) ∧
      1 ≤ ((extensionPartOf l).filter isDigitChar).length ∧
      ((extensionPartOf l).filter isDigitChar).length ≤ 5 ∧
      numberPartOf l ≠ [] := by
  simp only [parseNumberWithExtensionGen] at h
  split_ifs at h with hempty hdig hlen
  obtain ⟨he0, he5⟩ := not_or.mp hlen
  rcases hm : f (numberPartOf l) with pn₀ | e
  · rw [hm] at h
    simp only [PhoneNumberParseResult.success.injEq] at h
    subst h
    exact ⟨pn₀, rfl, rfl, rfl, rfl, by omega, by omega, (not_or.mp hempty).2⟩
  · rw [hm] at h
    simp at h

/-- The success invariants hold at every fuel level (induction on fuel,
the extension path inheriting them from the recursive parse). -/
theorem success_invariant_fuel (fuel : Nat) :
    ∀ (input : List Char) (pn : PhoneNumber),
      parsePhoneNumberFuel fuel input = .success pn →
      (∀ c ∈ pn.nationalNumber, isDigitChar c = true) ∧
      pn.countryCode ≠ [] ∧ pn.countryCode.head? = some '+' ∧
      (∀ e, pn.extension = some e →
        (∀ c ∈ e, isDigitChar c = true) ∧ 1 ≤ e.length ∧ e.length ≤ 5) := by
  induction fuel with
  | zero =>
    intro input pn h
    exact absurd h (by simp [parsePhoneNumberFuel])
  | succ fuel ih =>
    intro input pn h
    rw [parseFuel_unfold] at h
    split_ifs at h with h1 h2 h3 h4 h5 h6
    · obtain ⟨hext, ⟨n, hcc⟩, ⟨m, hnn⟩⟩ := parseInternationalNumber_success_inv h
      refine ⟨?_, ?_, ?_, ?_⟩
      · intro c hc
        rw [hnn] at hc
        exact List.of_mem_filter (List.mem_of_mem_drop hc)
      · rw [hcc]; simp
      · rw [hcc]; rfl
      · intro e he
        rw [hext] at he
        exact absurd he (by simp)
    · obtain ⟨pn₀, hm, hcc, hnn, hext, he1, he5, hnp⟩ := gen_success_inv h
      obtain ⟨hnat, hccne, hcchead, _⟩ := ih _ _ hm
      refine ⟨?_, ?_, ?_, ?_⟩
      · intro c hc
        rw [hnn] at hc
        exact hnat c hc
      · rw [hcc]; exact hccne
      · rw [hcc]; exact hcchead
      · intro e he
        rw [hext] at he
        obtain rfl : (extensionPartOf (input.filter keepChar)).filter isDigitChar = e :=
          Option.some.inj he
        exact ⟨fun c hc => List.of_mem_filter hc, he1, he5⟩
    · obtain ⟨hcc, hnn, hext⟩ := parseUSNumber_success_inv h
      refine ⟨?_, ?_, ?_, ?_⟩
      · intro c hc
        rw [hnn] at hc
        exact List.of_mem_filter hc
      · rw [hcc]; simp
      · rw [hcc]; rfl
      · intro e he
        rw [hext] at he
        exact absurd he (by simp)
    · obtain ⟨hcc, hnn, hext⟩ := parseUSNumber_success_inv h
      refine ⟨?_, ?_, ?_, ?_⟩
      · intro c hc
        rw [hnn] at hc
        exact List.of_mem_filter hc
      · rw [hcc]; simp
      · rw [hcc]; rfl
      · intro e he
        rw [hext] at he
        exact absurd he (by simp)

/-- C5: every successful parse yields a national number made only of
ASCII digits, a nonempty country code beginning with `+`, and, when an
extension is present, an extension made only of ASCII digits with length
between 1 and 5. -/
theorem claim_C5_success_invariants (input : List Char) (pn : PhoneNumber)
    (h : parsePhoneNumber input = .success pn) :
    (∀ c ∈ pn.nationalNumber, isDigitChar c = true) ∧
    pn.countryCode ≠ [] ∧ pn.countryCode.head? = some '+' ∧
    (∀ e, pn.extension = some e →
      (∀ c ∈ e, isDigitChar c = true) ∧ 1 ≤ e.length ∧ e.length ≤ 5) :=
  success_invariant_fuel 2 input pn h

theorem claim_C5_success_invariants_witness :
    parsePhoneNumber "5556234567x89".toList = .success {
      countryCode := "+1".toList,
      nationalNumber := "5556234567".toList,
      extension := some "89".toList,
      formatted := "(555) 623-4567 ext. 89".toList } ∧
    ((∀ c ∈ "5556234567".toList, isDigitChar c = true) ∧
      "+1".toList ≠ [] ∧ "+1".toList.head? = some '+' ∧
      (∀ e, some "89".toList = some e →
        (∀ c ∈ e, isDigitChar c = true) ∧ 1 ≤ e.length ∧ e.length ≤ 5)) :=
  ⟨by decide,
    claim_C5_success_invariants "5556234567x89".toList
      { countryCode := "+1".toList, nationalNumber := "5556234567".toList,
        extension := some "89".toList, formatted := "(555) 623-4567 ext. 89".toList }
      (by decide)⟩

/-- A parse of a string that is fixed by cleaning, contains no `x` after
lower-casing, and does not start with `+` can only succeed through the
US/Canada parser, whose country code is `+1`. -/
theorem noX_success_cc (fuel : Nat) (l : List Char) (pn : PhoneNumber)
    (hfix : l.filter keepChar = l)
    (hnx : ¬ 'x' ∈ l.map lowerChar)
    (hplus : l.head? ≠ some '+')
    (h : parsePhoneNumberFuel fuel l = .success pn) :
    pn.countryCode = ['+', '1'] := by
  cases fuel with
  | zero => exact absurd h (by simp [parsePhoneNumberFuel])
  | succ fuel =>
    rw [parseFuel_unfold, hfix] at h
    split_ifs at h with h1 h2 h3 h4 h5
    · exact absurd (by simpa using h3) hnx
    · exact (parseUSNumber_success_inv h).1
    · exact (parseUSNumber_success_inv h).1

/-- C8: a successful parse that carries an extension always has country
code `+1`: inputs starting with `+` go to the international path before
the extension check (so international results never carry an extension),
and the extension path's recursive main-number parse — whose argument
does not start with `+` and contains no `x` — can only succeed through
the US/Canada parser. -/
theorem claim_C8_extension_implies_plus_one (input : List Char) (pn : PhoneNumber)
    (h : parsePhoneNumber input = .success pn)
    (he : pn.extension.isSome = true) :
    pn.countryCode = "+1".toList := by
  have h' : parsePhoneNumberFuel (1 + 1) input = .success pn := h
  rw [parseFuel_unfold] at h'
  split_ifs at h' with h1 h2 h3 h4 h5 h6
  · obtain ⟨hext, _, _⟩ := parseInternationalNumber_success_inv h'
    rw [hext] at he
    exact absurd he (by simp)
  · obtain ⟨pn₀, hm, hcc, _, _, _, _, hnp⟩ := gen_success_inv h'
    have hl : ∀ c ∈ input.filter keepChar, keepChar c = true :=
      fun c hc => List.of_mem_filter hc
    have h₀ : pn₀.countryCode = ['+', '1'] :=
      noX_success_cc 1 (numberPartOf (input.filter keepChar)) pn₀
        (numberPartOf_filter_keep hl) (numberPartOf_no_x hl)
        (numberPartOf_head_ne_plus hl h3) hm
    rw [hcc, h₀]
    rfl
  · obtain ⟨_, _, hext⟩ := parseUSNumber_success_inv h'
    rw [hext] at he
    exact absurd he (by simp)
  · obtain ⟨_, _, hext⟩ := parseUSNumber_success_inv h'
    rw [hext] at he
    exact absurd he (by simp)

theorem claim_C8_extension_implies_plus_one_witness :
    (parsePhoneNumber "5556234567x89".toList = .success {
        countryCode := "+1".toList,
        nationalNumber := "5556234567".toList,
        extension := some "89".toList,
        formatted := "(555) 623-4567 ext. 89".toList } ∧
      (some "89".toList).isSome = true) ∧
    "+1".toList = "+1".toList :=
  ⟨⟨by decide, by decide⟩,
    claim_C8_extension_implies_plus_one "5556234567x89".toList
      { countryCode := "+1".toList, nationalNumber := "5556234567".toList,
        extension := some "89".toList, formatted := "(555) 623-4567 ext. 89".toList }
      (by decide) (by decide)⟩

example : parsePhoneNumber "5556234567".toList =
    .success { countryCode := "+1".toList, nationalNumber := "5556234567".toList,
               extension := none, formatted := "(555) 623-4567".toList } := by decide

example : parsePhoneNumber "5551234567".toList = .failure errExchange := by decide

example : parsePhoneNumber "555-623-4567x89".toList =
    .success { countryCode := "+1".toList, nationalNumber := "5556234567".toList,
               extension := some "89".toList, formatted := "(555) 623-4567 ext. 89".toList } := by
  decide

example : parsePhoneNumber "+442071234567".toList =
    .success { countryCode := "+44".toList, nationalNumber := "2071234567".toList,
               extension := none, formatted := "+44 2071234567".toList } := by decide

example : parsePhoneNumber "123456".toList = .failure errAtLeast7 := by decide

example : parsePhoneNumber "0551234567".toList = .failure errArea := by decide
